import Mathlib

set_option maxRecDepth 100000

/-!
Shallow embedding of the CloudWatch output plugin
(`plugins/outputs/cloudwatch/cloudwatch.go`).

Conventions of the embedding:
* Go `float64` field values are modelled by `FloatVal`: either a finite
  rational or one of the special values NaN / +Inf / -Inf.  The numeric
  literals `8.515920e-109` and `1.174271e+108` from `convert` are modelled
  as the exact decimal rationals they denote.
* Go maps (`map[string]string` tags, `map[string]interface{}` fields,
  `map[string]cloudwatchField` accumulators, `map[statisticType]float64`
  values) are modelled as association lists; map assignment is
  update-or-append (`setA`), map read is `lookupA`.  A list of fields also
  fixes one iteration order, standing for the (unspecified) Go map
  iteration order.
* AWS SDK pointer-typed datum members (`*string`, `*float64`,
  `*StatisticSet`, `*int32`, `*time.Time`) are modelled as `Option`;
  a member the Go code never assigns stays `Option.none`, exactly like the
  nil pointer in the produced `types.MetricDatum`.
* The external CloudWatch client (`svc.PutMetricData`) is a parameter of
  the write loop, returning `Except ε Unit`.
-/

/-- A Go `float64` value: finite (as an exact rational) or special. -/
inductive FloatVal
  | nan
  | posInf
  | negInf
  | fin (q : ℚ)
deriving DecidableEq

/-- A dynamically typed Go value as it may appear in `Metric.Fields()`;
the constructors record the dynamic type that Go's type switch matches on.
`goInt8`, `goInt16` and `goString` are representatives of dynamic types
that reach the `default` branch of `convert`'s type switch. -/
inductive GoValue
  | goInt (i : ℤ)
  | goInt8 (i : ℤ)
  | goInt16 (i : ℤ)
  | goInt32 (i : ℤ)
  | goInt64 (i : ℤ)
  | goUInt64 (n : ℕ)
  | goFloat64 (f : FloatVal)
  | goBool (b : Bool)
  | goTime (unixSec : ℤ)
  | goString (s : String)
deriving DecidableEq

/-- `type statisticType int` with its five constants. -/
inductive statisticType
  | none
  | max
  | min
  | sum
  | count
deriving DecidableEq

/-- Association-list read, mirroring a Go map read that distinguishes
presence (`v, ok := m[k]`). -/
def lookupA {α β : Type} [DecidableEq α] (k : α) : List (α × β) → Option β
  | [] => Option.none
  | (k', v) :: rest => if k' = k then some v else lookupA k rest

/-- Association-list write, mirroring Go map assignment `m[k] = v`
(overwrite if present, insert otherwise). -/
def setA {α β : Type} [DecidableEq α] (k : α) (v : β) : List (α × β) → List (α × β)
  | [] => [(k, v)]
  | (k', v') :: rest => if k' = k then (k, v) :: rest else (k', v') :: setA k v rest

/-- `types.Dimension` (both members are always assigned by this code). -/
structure Dimension where
  name : String
  value : String
deriving DecidableEq

/-- `types.StatisticSet`. -/
structure StatisticSet where
  minimum : ℚ
  maximum : ℚ
  sum : ℚ
  sampleCount : ℚ
deriving DecidableEq

/-- `types.MetricDatum`; `Option.none` models a nil pointer member. -/
structure MetricDatum where
  metricName : Option String
  dimensions : List Dimension
  timestamp : Option ℤ
  value : Option ℚ
  statisticValues : Option StatisticSet
  storageResolution : Option ℤ
deriving DecidableEq

/-- A `telegraf.Metric` as consumed by this plugin: `Name()`, `Tags()`,
`Fields()` (in one fixed iteration order) and `Time()` (as Unix seconds). -/
structure Metric where
  name : String
  tags : List (String × String)
  fields : List (String × GoValue)
  time : ℤ

/-- The constant `8.515920e-109` of `convert`, as an exact rational. -/
def lowerBound : ℚ := mkRat 8515920 (10 ^ 115)

/-- The constant `1.174271e+108` of `convert`, as an exact rational. -/
def upperBound : ℚ := mkRat (1174271 * 10 ^ 102) 1

/-- The type switch of `convert`: which dynamic types obtain a numeric
widening, and the widened value.  `Option.none` is the `default` branch
(unsupported type). -/
def convertType : GoValue → Option FloatVal
  | .goInt i => some (.fin i)
  | .goInt32 i => some (.fin i)
  | .goInt64 i => some (.fin i)
  | .goUInt64 n => some (.fin n)
  | .goFloat64 f => some f
  | .goBool b => some (.fin (if b then 1 else 0))
  | .goTime t => some (.fin t)
  | _ => Option.none

/-- `convert(v interface{}) (value float64, ok bool)`: the type switch
followed by the CloudWatch boundary checks, in source order
(NaN, Inf, positive underflow, overflow). -/
def convert (v : GoValue) : ℚ × Bool :=
  match convertType v with
  | Option.none => (0, false)
  | some FloatVal.nan => (0, false)
  | some FloatVal.posInf => (0, false)
  | some FloatVal.negInf => (0, false)
  | some (FloatVal.fin q) =>
    if 0 < q ∧ q < lowerBound then (0, false)
    else if upperBound < q then (0, false)
    else (q, true)

/-- `strings.HasSuffix`. -/
def hasSuffix (s suf : String) : Bool := List.isSuffixOf suf.data s.data

/-- `strings.TrimSuffix`. -/
def trimSuffix (s suf : String) : String :=
  if hasSuffix s suf then String.mk (s.data.take (s.data.length - suf.data.length)) else s

/-- `getStatisticType(name string) (sType statisticType, fieldName string)`. -/
def getStatisticType (name : String) : statisticType × String :=
  if hasSuffix name "_max" then (statisticType.max, trimSuffix name "_max")
  else if hasSuffix name "_min" then (statisticType.min, trimSuffix name "_min")
  else if hasSuffix name "_sum" then (statisticType.sum, trimSuffix name "_sum")
  else if hasSuffix name "_count" then (statisticType.count, trimSuffix name "_count")
  else (statisticType.none, name)

/-- Lexicographic comparison of char lists (byte order of `sort.Strings`,
restricted to the character level). -/
def charListLe : List Char → List Char → Bool
  | [], _ => true
  | _ :: _, [] => false
  | x :: xs, y :: ys => if x = y then charListLe xs ys else decide (x < y)

/-- The string order used by `sort.Strings`. -/
def strLe (a b : String) : Bool := charListLe a.data b.data

/-- `strLe` as a relation, for sortedness statements. -/
def strLeP (a b : String) : Prop := strLe a b = true

instance : DecidableRel strLeP := fun a b => by unfold strLeP; infer_instance

/-- `sort.Strings(keys)`: the ascending sort of the key list. -/
def sortStrings (l : List String) : List String := List.insertionSort strLeP l

/-- The loop of `BuildDimensions` over the sorted non-host keys:
stop at 10 dimensions, skip empty values, append otherwise. -/
def appendDims (mTags : List (String × String)) : List String → List Dimension → List Dimension
  | [], dims => dims
  | k :: ks, dims =>
    if 10 ≤ dims.length then dims
    else
      let value := (lookupA k mTags).getD ""
      if value = "" then appendDims mTags ks dims
      else appendDims mTags ks (dims ++ [⟨k, value⟩])

/-- The initial dimension list of `BuildDimensions`: the `"host"` tag, if
present, is always appended first (its value is not inspected). -/
def hostDims (mTags : List (String × String)) : List Dimension :=
  match lookupA "host" mTags with
  | some host => [⟨"host", host⟩]
  | Option.none => []

/-- The non-`"host"` keys of the tag map, in map-iteration order. -/
def nonHostKeys (mTags : List (String × String)) : List String :=
  (mTags.map Prod.fst).filter (fun k => decide (k ≠ "host"))

/-- `BuildDimensions(mTags map[string]string) []types.Dimension`. -/
def BuildDimensions (mTags : List (String × String)) : List Dimension :=
  appendDims mTags (sortStrings (nonHostKeys mTags)) (hostDims mTags)

/-- The two implementations of the `cloudwatchField` interface:
`statisticField` and `valueField`. -/
inductive cloudwatchField
  | statisticF (metricName fieldName : String) (tags : List (String × String))
      (values : List (statisticType × ℚ)) (timestamp : ℤ) (storageResolution : ℤ)
  | valueF (metricName fieldName : String) (tags : List (String × String))
      (value : ℚ) (timestamp : ℤ) (storageResolution : ℤ)
deriving DecidableEq

/-- The `addValue` methods of both variants: `statisticField.addValue`
records the value under any non-`none` kind; `valueField.addValue` only
reacts to the `none` kind. -/
def addValue : cloudwatchField → statisticType → ℚ → cloudwatchField
  | .statisticF m fn t vals ts sr, sType, value =>
    if sType ≠ statisticType.none then .statisticF m fn t (setA sType value vals) ts sr
    else .statisticF m fn t vals ts sr
  | .valueF m fn t v0 ts sr, sType, value =>
    if sType = statisticType.none then .valueF m fn t value ts sr
    else .valueF m fn t v0 ts sr

/-- `statisticField.hasAllFields`, as a function of the accumulated
kind-to-value map. -/
def hasAllFields (vals : List (statisticType × ℚ)) : Bool :=
  (lookupA statisticType.min vals).isSome && (lookupA statisticType.max vals).isSome &&
    (lookupA statisticType.sum vals).isSome && (lookupA statisticType.count vals).isSome

/-- The `switch sType` of the incomplete-statistic fallback in
`statisticField.buildDatum`: the name suffix per kind; `Option.none` is the
`default: continue` branch. -/
def statSuffix : statisticType → Option String
  | .min => some "min"
  | .max => some "max"
  | .sum => some "sum"
  | .count => some "count"
  | .none => Option.none

/-- One iteration of the fallback loop of `statisticField.buildDatum`:
the independent datum for one accumulated kind (note: no
`StorageResolution` is assigned in this branch of the source). -/
def fallbackDatum (m fn : String) (tags : List (String × String)) (ts : ℤ)
    (p : statisticType × ℚ) : Option MetricDatum :=
  (statSuffix p.1).map (fun suf =>
    { metricName := some (m ++ "_" ++ fn ++ "_" ++ suf)
      dimensions := BuildDimensions tags
      timestamp := some ts
      value := some p.2
      statisticValues := Option.none
      storageResolution := Option.none })

/-- The `buildDatum` methods of both variants. -/
def buildDatum : cloudwatchField → List MetricDatum
  | .statisticF m fn tags vals ts sr =>
    if hasAllFields vals then
      [{ metricName := some (m ++ "_" ++ fn)
         dimensions := BuildDimensions tags
         timestamp := some ts
         value := Option.none
         statisticValues := some
           { minimum := (lookupA statisticType.min vals).getD 0
             maximum := (lookupA statisticType.max vals).getD 0
             sum := (lookupA statisticType.sum vals).getD 0
             sampleCount := (lookupA statisticType.count vals).getD 0 }
         storageResolution := some sr }]
    else
      vals.filterMap (fallbackDatum m fn tags ts)
  | .valueF m fn tags v ts sr =>
    [{ metricName := some (m ++ "_" ++ fn)
       dimensions := BuildDimensions tags
       timestamp := some ts
       value := some v
       statisticValues := Option.none
       storageResolution := some sr }]

/-- The body of the field loop of `BuildMetricDatum`, for one
`(k, v)` pair of `point.Fields()`, acting on the accumulator map. -/
def processField (buildStatistic : Bool) (point : Metric) (storageResolution : ℤ)
    (fields : List (String × cloudwatchField)) (k : String) (v : GoValue) :
    List (String × cloudwatchField) :=
  let c := convert v
  if c.2 = false then fields
  else
    let s := getStatisticType k
    if buildStatistic = false ∨ s.1 = statisticType.none then
      setA k (cloudwatchField.valueF point.name k point.tags c.1 point.time storageResolution)
        fields
    else
      match lookupA s.2 fields with
      | Option.none =>
        setA s.2 (cloudwatchField.statisticF point.name s.2 point.tags
          [(s.1, c.1)] point.time storageResolution) fields
      | some f => setA s.2 (addValue f s.1 c.1) fields

/-- The accumulator map built by the field loop of `BuildMetricDatum`. -/
def accumFields (buildStatistic : Bool) (storageResolution : ℤ) (point : Metric) :
    List (String × cloudwatchField) :=
  point.fields.foldl (fun acc kv => processField buildStatistic point storageResolution acc kv.1 kv.2) []

/-- `BuildMetricDatum(buildStatistic, highResolutionMetrics bool, point telegraf.Metric)`. -/
def BuildMetricDatum (buildStatistic highResolutionMetrics : Bool) (point : Metric) :
    List MetricDatum :=
  let storageResolution : ℤ := if highResolutionMetrics then 1 else 60
  ((accumFields buildStatistic storageResolution point).map (fun kf => buildDatum kf.2)).flatten

/-- `PartitionDatums(size int, datums []types.MetricDatum)`. -/
def PartitionDatums (size : ℕ) (datums : List MetricDatum) : List (List MetricDatum) :=
  let numberOfPartitions :=
    datums.length / size + (if datums.length % size ≠ 0 then 1 else 0)
  (List.range numberOfPartitions).map (fun i => (datums.drop (size * i)).take size)

/-- The partition loop of `CloudWatch.Write`: submit each partition in
order via the transport (`WriteToCloudWatch` around `svc.PutMetricData`);
on the first error stop and return it.  The first component records which
partitions were actually submitted, in submission order. -/
def writePartitions {ε : Type} (transport : List MetricDatum → Except ε Unit) :
    List (List MetricDatum) → List (List MetricDatum) × Except ε Unit
  | [] => ([], Except.ok ())
  | p :: ps =>
    match transport p with
    | Except.error e => ([p], Except.error e)
    | Except.ok _ =>
      let r := writePartitions transport ps
      (p :: r.1, r.2)

/-- `CloudWatch.Write`: build all datums, partition with the constant
`maxDatumsPerCall = 20`, submit partitions sequentially. -/
def Write {ε : Type} (transport : List MetricDatum → Except ε Unit)
    (writeStatistics highResolutionMetrics : Bool) (metrics : List Metric) :
    List (List MetricDatum) × Except ε Unit :=
  let datums := metrics.foldl
    (fun acc m => acc ++ BuildMetricDatum writeStatistics highResolutionMetrics m) []
  writePartitions transport (PartitionDatums 20 datums)

/-! ## Helper lemmas about the association-list map operations -/

theorem lookupA_mem {α β : Type} [DecidableEq α] {k : α} {v : β} :
    ∀ {l : List (α × β)}, lookupA k l = some v → (k, v) ∈ l := by
  intro l
  induction l with
  | nil => intro h; simp [lookupA] at h
  | cons hd tl ih =>
    intro h
    rw [lookupA] at h
    by_cases hk : hd.1 = k
    · rw [if_pos hk] at h
      obtain ⟨a, b⟩ := hd
      cases hk
      cases Option.some.inj h
      exact List.mem_cons_self _ _
    · rw [if_neg hk] at h
      exact List.mem_cons_of_mem _ (ih h)

theorem mem_setA {α β : Type} [DecidableEq α] {k : α} {v : β} :
    ∀ {l : List (α × β)} {p : α × β}, p ∈ setA k v l → p = (k, v) ∨ p ∈ l := by
  intro l
  induction l with
  | nil => intro p hp; simp [setA] at hp; left; exact hp
  | cons hd tl ih =>
    intro p hp
    rw [setA] at hp
    by_cases hk : hd.1 = k
    · rw [if_pos hk] at hp
      rcases List.mem_cons.mp hp with h | h
      · exact Or.inl h
      · exact Or.inr (List.mem_cons_of_mem _ h)
    · rw [if_neg hk] at hp
      rcases List.mem_cons.mp hp with h | h
      · exact Or.inr (h ▸ List.mem_cons_self _ _)
      · rcases ih h with h' | h'
        · exact Or.inl h'
        · exact Or.inr (List.mem_cons_of_mem _ h')

theorem lookupA_isSome_iff {α β : Type} [DecidableEq α] {k : α} :
    ∀ {l : List (α × β)}, (lookupA k l).isSome = true ↔ k ∈ l.map Prod.fst := by
  intro l
  induction l with
  | nil => simp [lookupA]
  | cons hd tl ih =>
    rw [lookupA]
    by_cases hk : hd.1 = k
    · rw [if_pos hk]
      simp [hk]
    · rw [if_neg hk]
      simp only [List.map_cons, List.mem_cons, ih]
      constructor
      · intro h; exact Or.inr h
      · rintro (h | h)
        · exact absurd h.symm hk
        · exact h

theorem lookupA_of_mem_nodup {α β : Type} [DecidableEq α] {k : α} {v : β} :
    ∀ {l : List (α × β)}, (l.map Prod.fst).Nodup → (k, v) ∈ l → lookupA k l = some v := by
  intro l
  induction l with
  | nil => intro _ h; simp at h
  | cons hd tl ih =>
    intro hnd hm
    rw [List.map_cons, List.nodup_cons] at hnd
    rw [lookupA]
    rcases List.mem_cons.mp hm with h | h
    · rw [← h]
      simp
    · have hk : hd.1 ≠ k := by
        intro he
        exact hnd.1 (he ▸ (List.mem_map.mpr ⟨(k, v), h, rfl⟩))
      rw [if_neg hk]
      exact ih hnd.2 h

/-! ## C5: the range check of `convert` -/

/-- C5: for every successfully type-converted value, `convert` returns
`ok = false` exactly when the widened value is NaN, infinite, strictly
positive and below `8.515920e-109`, or above `1.174271e+108`. -/
theorem claim_C5_range_check (v : GoValue) (f : FloatVal) (h : convertType v = some f) :
    (convert v).2 = false ↔
      (f = FloatVal.nan ∨ f = FloatVal.posInf ∨ f = FloatVal.negInf ∨
        ∃ q : ℚ, f = FloatVal.fin q ∧ ((0 < q ∧ q < lowerBound) ∨ upperBound < q)) := by
  cases f with
  | nan => rw [show convert v = (0, false) by unfold convert; rw [h]]; simp
  | posInf => rw [show convert v = (0, false) by unfold convert; rw [h]]; simp
  | negInf => rw [show convert v = (0, false) by unfold convert; rw [h]]; simp
  | fin q =>
    have e : convert v =
        if 0 < q ∧ q < lowerBound then ((0 : ℚ), false)
        else if upperBound < q then ((0 : ℚ), false) else (q, true) := by
      unfold convert
      rw [h]
    rw [e]
    by_cases h1 : 0 < q ∧ q < lowerBound
    · rw [if_pos h1]
      simp [h1]
    · rw [if_neg h1]
      by_cases h2 : upperBound < q
      · rw [if_pos h2]
        simp [h1, h2]
      · rw [if_neg h2]
        simp [h1, h2]

/-- Witness for C5: the value `1e-200` is dropped by the
positive-underflow rule. -/
theorem claim_C5_range_check_witness :
    (convert (GoValue.goFloat64 (FloatVal.fin (mkRat 1 (10 ^ 200))))).2 = false :=
  (claim_C5_range_check (GoValue.goFloat64 (FloatVal.fin (mkRat 1 (10 ^ 200))))
      (FloatVal.fin (mkRat 1 (10 ^ 200))) rfl).mpr
    (Or.inr (Or.inr (Or.inr ⟨mkRat 1 (10 ^ 200), rfl, Or.inl (by decide)⟩)))

/-! ## C6: integer conversion in `convert` -/

/-- An integer-valued rational never trips the positive-underflow rule:
the rule needs `0 < q < 8.515920e-109` and the smallest positive integer
is `1`. -/
theorem int_cast_not_underflow (i : ℤ) : ¬(0 < (i : ℚ) ∧ (i : ℚ) < lowerBound) := by
  rintro ⟨hp, hl⟩
  have hi : (1 : ℤ) ≤ i := Int.cast_pos.mp hp
  have h1 : (1 : ℚ) ≤ (i : ℚ) := by exact_mod_cast hi
  have hlb : lowerBound < 1 := by decide
  linarith

/-- C6 counterexample: a signed 8-bit integer value is dropped by the
`default` branch of the type switch, although its widened value `5` passes
the range check. -/
theorem claim_C6_counterexample :
    convert (GoValue.goInt8 5) = (0, false) ∧ convert (GoValue.goInt64 5) = (5, true) := by
  constructor
  · rfl
  · decide

/-- C6 amended: values of dynamic type `int`, `int32`, `int64` and
`uint64` widen to their exact numeric value and are accepted whenever the
widened value passes the range check (for integers this reduces to the
upper bound), while the widths `int8` and `int16` fall into the `default`
branch and are dropped as unsupported. -/
theorem claim_C6_amended :
    (∀ i : ℤ, convert (GoValue.goInt i) =
      if (i : ℚ) ≤ upperBound then ((i : ℚ), true) else (0, false)) ∧
    (∀ i : ℤ, convert (GoValue.goInt32 i) =
      if (i : ℚ) ≤ upperBound then ((i : ℚ), true) else (0, false)) ∧
    (∀ i : ℤ, convert (GoValue.goInt64 i) =
      if (i : ℚ) ≤ upperBound then ((i : ℚ), true) else (0, false)) ∧
    (∀ n : ℕ, convert (GoValue.goUInt64 n) =
      if (n : ℚ) ≤ upperBound then ((n : ℚ), true) else (0, false)) ∧
    (∀ i : ℤ, convert (GoValue.goInt8 i) = (0, false)) ∧
    (∀ i : ℤ, convert (GoValue.goInt16 i) = (0, false)) := by
  have key : ∀ i : ℤ, (if 0 < (i : ℚ) ∧ (i : ℚ) < lowerBound then ((0 : ℚ), false)
      else if upperBound < (i : ℚ) then ((0 : ℚ), false) else ((i : ℚ), true)) =
      if (i : ℚ) ≤ upperBound then ((i : ℚ), true) else (0, false) := by
    intro i
    rw [if_neg (int_cast_not_underflow i)]
    by_cases h : (i : ℚ) ≤ upperBound
    · rw [if_neg (not_lt.mpr h), if_pos h]
    · rw [if_pos (not_le.mp h), if_neg h]
  have keyN : ∀ n : ℕ, (if 0 < (n : ℚ) ∧ (n : ℚ) < lowerBound then ((0 : ℚ), false)
      else if upperBound < (n : ℚ) then ((0 : ℚ), false) else ((n : ℚ), true)) =
      if (n : ℚ) ≤ upperBound then ((n : ℚ), true) else (0, false) := by
    intro n
    have := key (n : ℤ)
    simpa using this
  refine ⟨fun i => ?_, fun i => ?_, fun i => ?_, fun n => ?_, fun _ => rfl, fun _ => rfl⟩
  · rw [show convert (GoValue.goInt i) =
      (if 0 < (i : ℚ) ∧ (i : ℚ) < lowerBound then ((0 : ℚ), false)
        else if upperBound < (i : ℚ) then ((0 : ℚ), false) else ((i : ℚ), true)) from rfl]
    exact key i
  · rw [show convert (GoValue.goInt32 i) =
      (if 0 < (i : ℚ) ∧ (i : ℚ) < lowerBound then ((0 : ℚ), false)
        else if upperBound < (i : ℚ) then ((0 : ℚ), false) else ((i : ℚ), true)) from rfl]
    exact key i
  · rw [show convert (GoValue.goInt64 i) =
      (if 0 < (i : ℚ) ∧ (i : ℚ) < lowerBound then ((0 : ℚ), false)
        else if upperBound < (i : ℚ) then ((0 : ℚ), false) else ((i : ℚ), true)) from rfl]
    exact key i
  · rw [show convert (GoValue.goUInt64 n) =
      (if 0 < (n : ℚ) ∧ (n : ℚ) < lowerBound then ((0 : ℚ), false)
        else if upperBound < (n : ℚ) then ((0 : ℚ), false) else ((n : ℚ), true)) from rfl]
    exact keyN n
/-! ## C8: `PartitionDatums` -/

/-- Structural form of the partition loop: `k` chunks of `take size`,
advancing by `size`. -/
def chunkIter (size : ℕ) : ℕ → List MetricDatum → List (List MetricDatum)
  | 0, _ => []
  | k + 1, l => l.take size :: chunkIter size k (l.drop size)

theorem range_map_eq_chunkIter (size : ℕ) :
    ∀ (k : ℕ) (datums : List MetricDatum),
      (List.range k).map (fun i => (datums.drop (size * i)).take size) =
        chunkIter size k datums := by
  intro k
  induction k with
  | zero => intro datums; simp [chunkIter]
  | succ k ih =>
    intro datums
    rw [List.range_succ_eq_map, List.map_cons, List.map_map, chunkIter]
    rw [show size * 0 = 0 from Nat.mul_zero size, List.drop_zero]
    congr 1
    rw [← ih (datums.drop size)]
    apply List.map_congr_left
    intro i _
    simp only [Function.comp_apply]
    rw [List.drop_drop, Nat.mul_succ, Nat.add_comm]

theorem partitionDatums_eq_chunkIter (size : ℕ) (datums : List MetricDatum) :
    PartitionDatums size datums =
      chunkIter size
        (datums.length / size + (if datums.length % size ≠ 0 then 1 else 0)) datums := by
  unfold PartitionDatums
  exact range_map_eq_chunkIter size _ datums

theorem chunkIter_flatten (size : ℕ) :
    ∀ (k : ℕ) (l : List MetricDatum), l.length ≤ size * k → (chunkIter size k l).flatten = l := by
  intro k
  induction k with
  | zero =>
    intro l hl
    simp at hl
    simp [chunkIter, hl]
  | succ k ih =>
    intro l hl
    rw [chunkIter, List.flatten_cons, ih (l.drop size) ?_, List.take_append_drop]
    rw [List.length_drop]
    rw [Nat.mul_succ] at hl
    omega

theorem chunkIter_le (size : ℕ) :
    ∀ (k : ℕ) (l : List MetricDatum), ∀ c ∈ chunkIter size k l, c.length ≤ size := by
  intro k
  induction k with
  | zero => intro l c hc; simp [chunkIter] at hc
  | succ k ih =>
    intro l c hc
    rw [chunkIter] at hc
    rcases List.mem_cons.mp hc with h | h
    · rw [h, List.length_take]
      exact min_le_left _ _
    · exact ih _ c h

theorem chunkIter_pos (size : ℕ) (hsize : 0 < size) :
    ∀ (k : ℕ) (l : List MetricDatum), size * (k - 1) < l.length →
      ∀ c ∈ chunkIter size k l, 0 < c.length := by
  intro k
  induction k with
  | zero => intro l _ c hc; simp [chunkIter] at hc
  | succ k ih =>
    intro l hl c hc
    rw [chunkIter] at hc
    have hl0 : 0 < l.length := by
      have := Nat.zero_le (size * (k + 1 - 1))
      omega
    rcases List.mem_cons.mp hc with h | h
    · rw [h, List.length_take]
      omega
    · rcases k with _ | k'
      · simp [chunkIter] at h
      · refine ih (l.drop size) ?_ c h
        rw [List.length_drop]
        simp only [Nat.add_sub_cancel] at hl ⊢
        rw [Nat.mul_succ] at hl
        omega

theorem chunkIter_dropLast_full (size : ℕ) (hsize : 0 < size) :
    ∀ (k : ℕ) (l : List MetricDatum), size * (k - 1) < l.length →
      ∀ c ∈ (chunkIter size k l).dropLast, c.length = size := by
  intro k
  induction k with
  | zero => intro l _ c hc; simp [chunkIter] at hc
  | succ k ih =>
    intro l hl c hc
    rcases k with _ | k'
    · simp [chunkIter] at hc
    · rw [chunkIter, chunkIter, List.dropLast_cons₂, ← chunkIter] at hc
      simp only [Nat.add_sub_cancel] at hl
      rw [Nat.mul_succ] at hl
      rcases List.mem_cons.mp hc with h | h
      · rw [h, List.length_take]
        have := Nat.zero_le (size * k')
        omega
      · refine ih (l.drop size) ?_ c h
        rw [List.length_drop]
        simp only [Nat.add_sub_cancel]
        omega

/-- The loop-count computation of `PartitionDatums` covers the whole list
and is tight around the last chunk. -/
theorem numberOfPartitions_bounds (size : ℕ) (hsize : 0 < size) (n : ℕ) :
    n ≤ size * (n / size + (if n % size ≠ 0 then 1 else 0)) ∧
      (n = 0 ∨ size * ((n / size + (if n % size ≠ 0 then 1 else 0)) - 1) < n) := by
  obtain ⟨q, r, hdm, hml, hq, hr⟩ :
      ∃ q r, size * q + r = n ∧ r < size ∧ n / size = q ∧ n % size = r :=
    ⟨n / size, n % size, Nat.div_add_mod n size, Nat.mod_lt _ hsize, rfl, rfl⟩
  rw [hq, hr]
  by_cases h : r = 0
  · rw [if_neg (by simpa using h)]
    rcases Nat.eq_zero_or_pos q with hq0 | hq0
    · subst hq0
      constructor
      · omega
      · left
        omega
    · obtain ⟨q', rfl⟩ : ∃ q', q = q' + 1 := ⟨q - 1, by omega⟩
      rw [Nat.add_zero, Nat.add_sub_cancel, Nat.mul_succ] at *
      constructor
      · omega
      · right
        omega
  · rw [if_pos (by simpa using h)]
    rw [Nat.add_sub_cancel, Nat.mul_add, Nat.mul_one]
    constructor
    · omega
    · right
      omega

/-- A placeholder datum (all members nil), used for concrete
partition-size examples. -/
def emptyDatum : MetricDatum :=
  ⟨Option.none, [], Option.none, Option.none, Option.none, Option.none⟩

/-- C8: for positive `maxSize`, `PartitionDatums` splits the list into
contiguous chunks whose concatenation is the input; all chunks except
possibly the last have length exactly `maxSize`, every chunk is nonempty
and at most `maxSize` long; the empty list yields zero chunks, and 25
datums with `maxSize = 20` yield chunk sizes `[20, 5]`. -/
theorem claim_C8_partition (size : ℕ) (hsize : 0 < size) (datums : List MetricDatum) :
    (PartitionDatums size datums).flatten = datums ∧
    PartitionDatums size [] = [] ∧
    (∀ c ∈ (PartitionDatums size datums).dropLast, c.length = size) ∧
    (∀ c ∈ PartitionDatums size datums, 0 < c.length ∧ c.length ≤ size) ∧
    (PartitionDatums 20 (List.replicate 25 emptyDatum)).map List.length = [20, 5] := by
  obtain ⟨hcover, htight⟩ := numberOfPartitions_bounds size hsize datums.length
  have hempty : PartitionDatums size [] = [] := by
    rw [partitionDatums_eq_chunkIter]
    simp [chunkIter]
  rw [partitionDatums_eq_chunkIter]
  rcases htight with hzero | htight
  · rw [List.length_eq_zero] at hzero
    subst hzero
    refine ⟨by simp [chunkIter], hempty, by simp [chunkIter], by simp [chunkIter], rfl⟩
  · refine ⟨chunkIter_flatten size _ datums hcover, hempty,
      chunkIter_dropLast_full size hsize _ datums htight, ?_, rfl⟩
    intro c hc
    exact ⟨chunkIter_pos size hsize _ datums htight c hc, chunkIter_le size _ datums c hc⟩

/-- Witness for C8 at `maxSize = 20` on the empty list. -/
theorem claim_C8_partition_witness : (PartitionDatums 20 []).flatten = [] :=
  (claim_C8_partition 20 (by decide) []).1

/-! ## C9: the partition loop of `CloudWatch.Write` -/

/-- C9: partitions are submitted sequentially in partition order; if the
transport call for partition `j` fails (all earlier ones succeeding), the
write returns that first error and the submitted partitions are exactly
the first `j + 1`, so no later partition is submitted. -/
theorem claim_C9_write_stops {ε : Type} (transport : List MetricDatum → Except ε Unit)
    (parts : List (List MetricDatum)) (j : ℕ) (e : ε) (hj : j < parts.length)
    (hok : ∀ p ∈ parts.take j, transport p = Except.ok ())
    (herr : transport (parts.get ⟨j, hj⟩) = Except.error e) :
    writePartitions transport parts = (parts.take (j + 1), Except.error e) := by
  induction parts generalizing j with
  | nil => simp at hj
  | cons p ps ih =>
    rcases j with _ | j'
    · rw [writePartitions]
      rw [show (p :: ps).get ⟨0, hj⟩ = p from rfl] at herr
      rw [herr]
      rfl
    · have hp : transport p = Except.ok () := by
        refine hok p ?_
        rw [List.take_succ_cons]
        exact List.mem_cons_self _ _
      rw [writePartitions, hp]
      have hj' : j' < ps.length := by
        rw [List.length_cons] at hj
        omega
      have hok' : ∀ q ∈ ps.take j', transport q = Except.ok () := by
        intro q hq
        refine hok q ?_
        rw [List.take_succ_cons]
        exact List.mem_cons_of_mem _ hq
      have herr' : transport (ps.get ⟨j', hj'⟩) = Except.error e := by
        rw [show (p :: ps).get ⟨j' + 1, hj⟩ = ps.get ⟨j', hj'⟩ from rfl] at herr
        exact herr
      rw [ih j' hj' hok' herr', List.take_succ_cons]

/-- Witness for C9: three partitions, a transport that fails exactly on
the middle one; only the first two are submitted and the error returned. -/
theorem claim_C9_write_stops_witness :
    writePartitions
        (fun p => if p.length = 2 then Except.error 7 else Except.ok ())
        [[emptyDatum], [emptyDatum, emptyDatum], [emptyDatum]] =
      ([[emptyDatum], [emptyDatum, emptyDatum]], Except.error 7) :=
  claim_C9_write_stops (fun p => if p.length = 2 then Except.error 7 else Except.ok ())
    [[emptyDatum], [emptyDatum, emptyDatum], [emptyDatum]] 1 7 (by decide)
    (by
      intro q hq
      simp only [List.take_succ_cons, List.take_zero] at hq
      rw [List.mem_singleton.mp hq]
      rfl)
    rfl

/-! ## C4 and C7: `BuildDimensions` -/

theorem charListLe_total : ∀ a b : List Char, charListLe a b = true ∨ charListLe b a = true := by
  intro a
  induction a with
  | nil => intro b; left; rw [charListLe]
  | cons x xs ih =>
    intro b
    cases b with
    | nil => right; rw [charListLe]
    | cons y ys =>
      by_cases hxy : x = y
      · subst hxy
        rw [charListLe, if_pos rfl, charListLe, if_pos rfl]
        exact ih ys
      · rcases lt_trichotomy x y with h | h | h
        · left
          rw [charListLe, if_neg hxy]
          simpa using h
        · exact absurd h hxy
        · right
          rw [charListLe, if_neg (Ne.symm hxy)]
          simpa using h

theorem charListLe_trans :
    ∀ a b c : List Char, charListLe a b = true → charListLe b c = true →
      charListLe a c = true := by
  intro a
  induction a with
  | nil => intro b c _ _; rw [charListLe]
  | cons x xs ih =>
    intro b c hab hbc
    cases b with
    | nil => rw [charListLe] at hab; exact absurd hab (by simp)
    | cons y ys =>
      cases c with
      | nil => rw [charListLe] at hbc; exact absurd hbc (by simp)
      | cons z zs =>
        rw [charListLe] at hab hbc ⊢
        by_cases hxy : x = y
        · subst hxy
          rw [if_pos rfl] at hab
          by_cases hyz : x = z
          · subst hyz
            rw [if_pos rfl] at hbc
            rw [if_pos rfl]
            exact ih ys zs hab hbc
          · rw [if_neg hyz] at hbc
            rw [if_neg hyz]
            exact hbc
        · rw [if_neg hxy] at hab
          have hxy' : x < y := by simpa using hab
          by_cases hyz : y = z
          · subst hyz
            rw [if_neg hxy]
            simpa using hxy'
          · rw [if_neg hyz] at hbc
            have hyz' : y < z := by simpa using hbc
            have hxz : x < z := lt_trans hxy' hyz'
            rw [if_neg (ne_of_lt hxz)]
            simpa using hxz

instance : IsTotal String strLeP :=
  ⟨fun a b => charListLe_total a.data b.data⟩

instance : IsTrans String strLeP :=
  ⟨fun a b c hab hbc => charListLe_trans a.data b.data c.data hab hbc⟩

theorem length_appendDims_le (mTags : List (String × String)) :
    ∀ (ks : List String) (dims : List Dimension), dims.length ≤ 10 →
      (appendDims mTags ks dims).length ≤ 10 := by
  intro ks
  induction ks with
  | nil => intro dims h; rw [appendDims]; exact h
  | cons k ks ih =>
    intro dims h
    rw [appendDims]
    by_cases hfull : 10 ≤ dims.length
    · rw [if_pos hfull]
      exact h
    · rw [if_neg hfull]
      dsimp only
      by_cases hv : (lookupA k mTags).getD "" = ""
      · rw [if_pos hv]
        exact ih dims h
      · rw [if_neg hv]
        refine ih _ ?_
        rw [List.length_append, List.length_singleton]
        omega

theorem mem_appendDims (mTags : List (String × String)) :
    ∀ (ks : List String) (dims : List Dimension) (d : Dimension),
      d ∈ appendDims mTags ks dims → d ∈ dims ∨ (d.name ∈ ks ∧ d.value ≠ "") := by
  intro ks
  induction ks with
  | nil => intro dims d h; rw [appendDims] at h; exact Or.inl h
  | cons k ks ih =>
    intro dims d h
    rw [appendDims] at h
    by_cases hfull : 10 ≤ dims.length
    · rw [if_pos hfull] at h
      exact Or.inl h
    · rw [if_neg hfull] at h
      dsimp only at h
      by_cases hv : (lookupA k mTags).getD "" = ""
      · rw [if_pos hv] at h
        rcases ih dims d h with h' | h'
        · exact Or.inl h'
        · exact Or.inr ⟨List.mem_cons_of_mem _ h'.1, h'.2⟩
      · rw [if_neg hv] at h
        rcases ih _ d h with h' | h'
        · rcases List.mem_append.mp h' with h'' | h''
          · exact Or.inl h''
          · rw [List.mem_singleton.mp h'']
            exact Or.inr ⟨List.mem_cons_self _ _, hv⟩
        · exact Or.inr ⟨List.mem_cons_of_mem _ h'.1, h'.2⟩

theorem mem_hostDims (mTags : List (String × String)) (d : Dimension)
    (h : d ∈ hostDims mTags) : d.name = "host" := by
  unfold hostDims at h
  rcases hl : lookupA "host" mTags with _ | v
  · rw [hl] at h
    simp at h
  · rw [hl] at h
    rw [List.mem_singleton.mp h]

theorem mem_sortStrings {k : String} {l : List String} (h : k ∈ sortStrings l) : k ∈ l :=
  (List.Perm.mem_iff (List.perm_insertionSort strLeP l)).mp h

/-- C4 counterexample: a `"host"` tag with an empty value appears in the
dimension list as a dimension with empty value — the host tag's value is
never inspected by `BuildDimensions`. -/
theorem claim_C4_counterexample :
    BuildDimensions [("host", "")] = [⟨"host", ""⟩] ∧
    ¬(∀ d ∈ BuildDimensions [("host", "")], d.value ≠ "") := by
  constructor
  · decide
  · decide

/-- C4 amended: the dimension list never exceeds 10 entries, and every
non-`"host"` dimension has a non-empty value; only the `"host"` dimension
may carry the empty value (the code appends the host tag unchecked). -/
theorem claim_C4_amended (mTags : List (String × String)) :
    (BuildDimensions mTags).length ≤ 10 ∧
    (∀ d ∈ BuildDimensions mTags, d.name ≠ "host" → d.value ≠ "") := by
  constructor
  · refine length_appendDims_le mTags _ _ ?_
    unfold hostDims
    rcases lookupA "host" mTags with _ | v
    · simp
    · simp
  · intro d hd hname
    rcases mem_appendDims mTags _ _ d hd with h | h
    · exact absurd (mem_hostDims mTags d h) hname
    · exact h.2

/-- Witness for C4 at a concrete tag map. -/
theorem claim_C4_amended_witness :
    (BuildDimensions [("host", "h1"), ("zone", "z1")]).length ≤ 10 ∧
    (∀ d ∈ BuildDimensions [("host", "h1"), ("zone", "z1")], d.name ≠ "host" → d.value ≠ "") :=
  claim_C4_amended [("host", "h1"), ("zone", "z1")]

/-- The per-key effect of the dimension loop: the dimension appended for a
key, or `Option.none` when the key's value is empty. -/
def mkDim (mTags : List (String × String)) (k : String) : Option Dimension :=
  if (lookupA k mTags).getD "" = "" then Option.none
  else some ⟨k, (lookupA k mTags).getD ""⟩

theorem appendDims_eq_take (mTags : List (String × String)) :
    ∀ (ks : List String) (dims : List Dimension), dims.length ≤ 10 →
      appendDims mTags ks dims =
        dims ++ (ks.filterMap (mkDim mTags)).take (10 - dims.length) := by
  intro ks
  induction ks with
  | nil =>
    intro dims _
    rw [appendDims]
    simp
  | cons k ks ih =>
    intro dims hlen
    rw [appendDims]
    by_cases hfull : 10 ≤ dims.length
    · rw [if_pos hfull]
      rw [show 10 - dims.length = 0 from by omega, List.take_zero, List.append_nil]
    · rw [if_neg hfull]
      dsimp only
      by_cases hv : (lookupA k mTags).getD "" = ""
      · rw [if_pos hv, List.filterMap_cons_none (by rw [mkDim, if_pos hv])]
        exact ih dims hlen
      · rw [if_neg hv,
          List.filterMap_cons_some (by rw [mkDim, if_neg hv]),
          ih _ (by rw [List.length_append, List.length_singleton]; omega)]
        rw [List.length_append, List.length_singleton]
        rw [show 10 - dims.length = (10 - (dims.length + 1)) + 1 from by omega,
          List.take_succ_cons, List.append_assoc, List.singleton_append]

/-- C7 counterexample: with a present-but-empty `"host"` tag the code
still emits the host dimension first, so the output is not the list the
claim describes (which would start with the sorted non-empty keys). -/
theorem claim_C7_counterexample :
    BuildDimensions [("host", ""), ("a", "1")] = [⟨"host", ""⟩, ⟨"a", "1"⟩] ∧
    BuildDimensions [("host", ""), ("a", "1")] ≠ [⟨"a", "1"⟩] := by
  constructor
  · decide
  · decide

/-- C7 amended: the dimension list is the `"host"` dimension first
whenever the `"host"` tag is present (regardless of its value, which is
not inspected), followed by the remaining keys in ascending lexicographic
order with empty-valued keys skipped, truncated so that the total count
(host included) never exceeds 10; on `{host:h1, zone:z1, az:a1}` the order
is `[host, az, zone]`. -/
theorem claim_C7_amended (mTags : List (String × String)) :
    BuildDimensions mTags =
      hostDims mTags ++
        ((sortStrings (nonHostKeys mTags)).filterMap (mkDim mTags)).take
          (10 - (hostDims mTags).length) ∧
    List.Sorted strLeP (sortStrings (nonHostKeys mTags)) ∧
    BuildDimensions [("az", "a1"), ("host", "h1"), ("zone", "z1")] =
      [⟨"host", "h1"⟩, ⟨"az", "a1"⟩, ⟨"zone", "z1"⟩] := by
  refine ⟨?_, List.sorted_insertionSort strLeP (nonHostKeys mTags), by decide⟩
  apply appendDims_eq_take
  unfold hostDims
  rcases lookupA "host" mTags with _ | v
  · simp
  · simp

/-! ## C2, C10, C3: the field loop of `BuildMetricDatum` -/

/-- The per-accumulator invariant of the field loop: the accumulator
stores the metric's storage resolution, and a statistic accumulator never
holds the `none` kind. -/
def fieldInv (sr : ℤ) : cloudwatchField → Prop
  | .statisticF _ _ _ vals _ sr' => sr' = sr ∧ statisticType.none ∉ vals.map Prod.fst
  | .valueF _ _ _ _ _ sr' => sr' = sr

theorem addValue_fieldInv {sr : ℤ} {f : cloudwatchField} (s : statisticType) (q : ℚ)
    (h : fieldInv sr f) : fieldInv sr (addValue f s q) := by
  cases f with
  | statisticF m fn t vals ts sr' =>
    rw [addValue]
    by_cases hs : s = statisticType.none
    · rw [if_neg (by simp [hs])]
      exact h
    · rw [if_pos (by simp [hs])]
      obtain ⟨h1, h2⟩ := h
      refine ⟨h1, ?_⟩
      intro hmem
      rcases List.mem_map.mp hmem with ⟨p, hp, hp1⟩
      rcases mem_setA hp with he | he
      · rw [he] at hp1
        exact hs hp1
      · exact h2 (List.mem_map.mpr ⟨p, he, hp1⟩)
  | valueF m fn t v0 ts sr' =>
    rw [addValue]
    by_cases hs : s = statisticType.none
    · rw [if_pos hs]
      exact h
    · rw [if_neg hs]
      exact h

theorem processField_fieldInv (bs : Bool) (point : Metric) (sr : ℤ)
    (fields : List (String × cloudwatchField)) (k : String) (v : GoValue)
    (h : ∀ kf ∈ fields, fieldInv sr kf.2) :
    ∀ kf ∈ processField bs point sr fields k v, fieldInv sr kf.2 := by
  intro kf hkf
  rw [processField] at hkf
  dsimp only at hkf
  by_cases hc : (convert v).2 = false
  · rw [if_pos hc] at hkf
    exact h kf hkf
  · rw [if_neg hc] at hkf
    by_cases hb : bs = false ∨ (getStatisticType k).1 = statisticType.none
    · rw [if_pos hb] at hkf
      rcases mem_setA hkf with he | he
      · rw [he]
        exact rfl
      · exact h kf he
    · rw [if_neg hb] at hkf
      have hs : (getStatisticType k).1 ≠ statisticType.none := fun he => hb (Or.inr he)
      rcases hl : lookupA (getStatisticType k).2 fields with _ | f
      · rw [hl] at hkf
        rcases mem_setA hkf with he | he
        · rw [he]
          refine ⟨rfl, ?_⟩
          intro hmem
          rcases List.mem_map.mp hmem with ⟨p, hp, hp1⟩
          rw [List.mem_singleton.mp hp] at hp1
          exact hs hp1
        · exact h kf he
      · rw [hl] at hkf
        rcases mem_setA hkf with he | he
        · rw [he]
          exact addValue_fieldInv _ _ (h ((getStatisticType k).2, f) (lookupA_mem hl))
        · exact h kf he

theorem accumFields_fieldInv (bs : Bool) (sr : ℤ) (point : Metric) :
    ∀ kf ∈ accumFields bs sr point, fieldInv sr kf.2 := by
  unfold accumFields
  have main : ∀ (l : List (String × GoValue)) (init : List (String × cloudwatchField)),
      (∀ kf ∈ init, fieldInv sr kf.2) →
      ∀ kf ∈ l.foldl (fun acc kv => processField bs point sr acc kv.1 kv.2) init,
        fieldInv sr kf.2 := by
    intro l
    induction l with
    | nil =>
      intro init h kf hkf
      rw [List.foldl_nil] at hkf
      exact h kf hkf
    | cons kv l ih =>
      intro init h kf hkf
      rw [List.foldl_cons] at hkf
      exact ih _ (processField_fieldInv bs point sr init kv.1 kv.2 h) kf hkf
  exact main point.fields [] (by simp)

theorem buildDatum_storage {sr : ℤ} (f : cloudwatchField) (h : fieldInv sr f) :
    ∀ d ∈ buildDatum f,
      d.storageResolution = some sr ∨
        (d.storageResolution = Option.none ∧ d.statisticValues = Option.none ∧
          d.value ≠ Option.none) := by
  cases f with
  | valueF m fn tags v ts sr' =>
    intro d hd
    rw [buildDatum] at hd
    rw [List.mem_singleton.mp hd]
    left
    have hsr : sr' = sr := h
    rw [hsr]
  | statisticF m fn tags vals ts sr' =>
    intro d hd
    rw [buildDatum] at hd
    by_cases hall : hasAllFields vals = true
    · rw [if_pos hall] at hd
      rw [List.mem_singleton.mp hd]
      left
      have hsr : sr' = sr := h.1
      rw [hsr]
    · rw [if_neg hall] at hd
      right
      rcases List.mem_filterMap.mp hd with ⟨p, _, hfb⟩
      rw [fallbackDatum] at hfb
      rcases hsx : statSuffix p.1 with _ | suf
      · rw [hsx] at hfb
        simp at hfb
      · rw [hsx, Option.map_some'] at hfb
        rw [← Option.some.inj hfb]
        exact ⟨rfl, rfl, by simp⟩

/-- A metric whose single field is an isolated `_min` statistic
component, triggering the incomplete-statistic fallback. -/
def minOnlyMetric : Metric :=
  ⟨"m", [], [("x_min", GoValue.goFloat64 (FloatVal.fin 1))], 0⟩

/-- C2 counterexample: with `highResolution = false` the claim requires
every datum to carry storage resolution 60, but the independent datum
emitted for an incomplete statistic set carries none at all (the fallback
branch of `statisticField.buildDatum` never sets `StorageResolution`). -/
theorem claim_C2_counterexample :
    BuildMetricDatum true false minOnlyMetric =
      [{ metricName := some "m_x_min", dimensions := [], timestamp := some 0,
         value := some 1, statisticValues := Option.none,
         storageResolution := Option.none }] ∧
    ¬(∀ d ∈ BuildMetricDatum true false minOnlyMetric,
        d.storageResolution = some 60) := by
  exact ⟨by decide, by decide⟩

/-- C2 amended: every datum of a metric either carries the metric's
storage resolution (1 when high resolution, else 60) — this covers all
raw-value and full-statistic-set datums — or is an incomplete-statistic
fallback datum, which carries no storage resolution at all (and is a
plain scalar datum). -/
theorem claim_C2_amended (bs hr : Bool) (point : Metric) (d : MetricDatum)
    (hd : d ∈ BuildMetricDatum bs hr point) :
    d.storageResolution = some (if hr then 1 else 60) ∨
      (d.storageResolution = Option.none ∧ d.statisticValues = Option.none ∧
        d.value ≠ Option.none) := by
  unfold BuildMetricDatum at hd
  dsimp only at hd
  rcases List.mem_flatten.mp hd with ⟨ds, hds, hdd⟩
  rcases List.mem_map.mp hds with ⟨kf, hkf, rfl⟩
  exact buildDatum_storage kf.2 (accumFields_fieldInv bs _ point kf hkf) d hdd

/-- Witness for C2 (amended) on a plain raw-value metric. -/
theorem claim_C2_amended_witness :
    ({ metricName := some "m_x", dimensions := [], timestamp := some 0,
       value := some 1, statisticValues := Option.none,
       storageResolution := some 60 } : MetricDatum).storageResolution =
        some (if false then 1 else 60) ∨
      (({ metricName := some "m_x", dimensions := [], timestamp := some 0,
          value := some 1, statisticValues := Option.none,
          storageResolution := some 60 } : MetricDatum).storageResolution = Option.none ∧
        ({ metricName := some "m_x", dimensions := [], timestamp := some 0,
           value := some 1, statisticValues := Option.none,
           storageResolution := some 60 } : MetricDatum).statisticValues = Option.none ∧
        ({ metricName := some "m_x", dimensions := [], timestamp := some 0,
           value := some 1, statisticValues := Option.none,
           storageResolution := some 60 } : MetricDatum).value ≠ Option.none) :=
  claim_C2_amended false false ⟨"m", [], [("x", GoValue.goFloat64 (FloatVal.fin 1))], 0⟩
    { metricName := some "m_x", dimensions := [], timestamp := some 0,
      value := some 1, statisticValues := Option.none, storageResolution := some 60 }
    (by decide)

theorem statSuffix_isSome_of_ne_none {s : statisticType} (h : s ≠ statisticType.none) :
    ∃ suf, statSuffix s = some suf := by
  cases s with
  | none => exact absurd rfl h
  | max => exact ⟨"max", rfl⟩
  | min => exact ⟨"min", rfl⟩
  | sum => exact ⟨"sum", rfl⟩
  | count => exact ⟨"count", rfl⟩

theorem fallback_length (m fn : String) (tags : List (String × String)) (ts : ℤ) :
    ∀ vals : List (statisticType × ℚ), statisticType.none ∉ vals.map Prod.fst →
      (vals.filterMap (fallbackDatum m fn tags ts)).length = vals.length := by
  intro vals
  induction vals with
  | nil => intro _; rfl
  | cons p rest ih =>
    intro h
    rw [List.map_cons] at h
    have h1 : p.1 ≠ statisticType.none := fun he =>
      h (List.mem_cons.mpr (Or.inl he.symm))
    have h2 : statisticType.none ∉ rest.map Prod.fst := fun he =>
      h (List.mem_cons.mpr (Or.inr he))
    obtain ⟨suf, hsuf⟩ := statSuffix_isSome_of_ne_none h1
    rw [List.filterMap_cons_some (by rw [fallbackDatum, hsuf, Option.map_some'])]
    rw [List.length_cons, List.length_cons, ih h2]

/-- C10: a statistic accumulator reachable through the field loop never
records the `none` kind (accumulators are created only under a non-`none`
kind, and `addValue` ignores `none`); consequently in the
incomplete-statistic fallback of `buildDatum` the `default: continue`
branch never fires: one suffix-named datum is emitted per recorded kind. -/
theorem claim_C10_no_none_kind (bs : Bool) (sr : ℤ) (point : Metric) (k : String)
    (f : cloudwatchField) (hf : (k, f) ∈ accumFields bs sr point)
    (m fn : String) (tags : List (String × String)) (vals : List (statisticType × ℚ))
    (ts sr' : ℤ) (hstat : f = cloudwatchField.statisticF m fn tags vals ts sr')
    (hfull : hasAllFields vals = false) :
    statisticType.none ∉ vals.map Prod.fst ∧ (buildDatum f).length = vals.length := by
  have hinv := accumFields_fieldInv bs sr point (k, f) hf
  rw [hstat] at hinv
  obtain ⟨-, h2⟩ := hinv
  refine ⟨h2, ?_⟩
  rw [hstat, buildDatum, if_neg (by rw [hfull]; exact Bool.false_ne_true)]
  exact fallback_length m fn tags ts vals h2

/-- Witness for C10 on the single-`_min` metric. -/
theorem claim_C10_no_none_kind_witness :
    statisticType.none ∉ ([(statisticType.min, (1 : ℚ))].map Prod.fst) ∧
    (buildDatum (cloudwatchField.statisticF "m" "x" [] [(statisticType.min, 1)] 0 60)).length =
      [(statisticType.min, (1 : ℚ))].length :=
  claim_C10_no_none_kind true 60 minOnlyMetric "x"
    (cloudwatchField.statisticF "m" "x" [] [(statisticType.min, 1)] 0 60) (by decide)
    "m" "x" [] [(statisticType.min, 1)] 0 60 rfl (by decide)

/-- A metric with a plain field `"x"` and a suffixed field `"x_min"`, in
that iteration order. -/
def collideMetricA (q1 q2 : ℚ) : Metric :=
  ⟨"m", [],
    [("x", GoValue.goFloat64 (FloatVal.fin q1)), ("x_min", GoValue.goFloat64 (FloatVal.fin q2))],
    0⟩

/-- The same metric with the opposite field iteration order. -/
def collideMetricB (q1 q2 : ℚ) : Metric :=
  ⟨"m", [],
    [("x_min", GoValue.goFloat64 (FloatVal.fin q2)), ("x", GoValue.goFloat64 (FloatVal.fin q1))],
    0⟩

/-- C3 counterexample: with aggregation enabled, plain field `"x"` and
suffixed field `"x_min"` collide on the single accumulator map at key
`"x"`; only the raw datum for `"x"` is produced and no datum carries the
`"x_min"` observation. -/
theorem claim_C3_counterexample :
    BuildMetricDatum true false (collideMetricA 5 1) =
      [{ metricName := some "m_x", dimensions := [], timestamp := some 0,
         value := some 5, statisticValues := Option.none,
         storageResolution := some 60 }] ∧
    ¬(∃ d ∈ BuildMetricDatum true false (collideMetricA 5 1),
        d.metricName = some "m_x_min") := by
  exact ⟨by decide, by decide⟩

/-- C3 amended: raw-value accumulators (keyed by the full field name) and
statistic-set accumulators (keyed by the stripped base name) live in one
shared map, so a plain field `"x"` and a suffixed field `"x_min"` collide
at key `"x"`: in either field iteration order only the raw datum for
`"x"` survives and the `"x_min"` value is dropped. -/
theorem claim_C3_amended (q1 q2 : ℚ)
    (h1 : convert (GoValue.goFloat64 (FloatVal.fin q1)) = (q1, true))
    (h2 : convert (GoValue.goFloat64 (FloatVal.fin q2)) = (q2, true)) :
    BuildMetricDatum true false (collideMetricA q1 q2) =
      [{ metricName := some "m_x", dimensions := [], timestamp := some 0,
         value := some q1, statisticValues := Option.none,
         storageResolution := some 60 }] ∧
    BuildMetricDatum true false (collideMetricB q1 q2) =
      [{ metricName := some "m_x", dimensions := [], timestamp := some 0,
         value := some q1, statisticValues := Option.none,
         storageResolution := some 60 }] := by
  have g1 : getStatisticType "x" = (statisticType.none, "x") := by decide
  have g2 : getStatisticType "x_min" = (statisticType.min, "x") := by decide
  have hname : "m" ++ "_" ++ "x" = "m_x" := by decide
  have hdims : BuildDimensions [] = [] := by decide
  constructor
  · show ((accumFields true 60 (collideMetricA q1 q2)).map
        (fun kf => buildDatum kf.2)).flatten = _
    have e1 : accumFields true 60 (collideMetricA q1 q2) =
        [("x", cloudwatchField.valueF "m" "x" [] q1 0 60)] := by
      show processField true _ 60
          (processField true _ 60 [] "x" (GoValue.goFloat64 (FloatVal.fin q1)))
          "x_min" (GoValue.goFloat64 (FloatVal.fin q2)) = _
      rw [processField, processField]
      dsimp only
      rw [h1, h2, g1, g2]
      simp [setA, lookupA, addValue, collideMetricA]
    rw [e1]
    simp [buildDatum, hname, hdims]
  · show ((accumFields true 60 (collideMetricB q1 q2)).map
        (fun kf => buildDatum kf.2)).flatten = _
    have e1 : accumFields true 60 (collideMetricB q1 q2) =
        [("x", cloudwatchField.valueF "m" "x" [] q1 0 60)] := by
      show processField true _ 60
          (processField true _ 60 [] "x_min" (GoValue.goFloat64 (FloatVal.fin q2)))
          "x" (GoValue.goFloat64 (FloatVal.fin q1)) = _
      rw [processField, processField]
      dsimp only
      rw [h1, h2, g1, g2]
      simp [setA, lookupA, addValue, collideMetricB]
    rw [e1]
    simp [buildDatum, hname, hdims]

/-- Witness for C3 (amended) at values `5` and `1`. -/
theorem claim_C3_amended_witness :
    BuildMetricDatum true false (collideMetricA 5 1) =
      [{ metricName := some "m_x", dimensions := [], timestamp := some 0,
         value := some 5, statisticValues := Option.none,
         storageResolution := some 60 }] ∧
    BuildMetricDatum true false (collideMetricB 5 1) =
      [{ metricName := some "m_x", dimensions := [], timestamp := some 0,
         value := some 5, statisticValues := Option.none,
         storageResolution := some 60 }] :=
  claim_C3_amended 5 1 (by decide) (by decide)

/-! ## C1: `statisticField.buildDatum` and `hasAllFields` -/

theorem string_append_cancel_left {a b c : String} (h : a ++ b = a ++ c) : b = c := by
  have hd := congrArg String.data h
  rw [String.data_append, String.data_append] at hd
  exact String.ext (List.append_cancel_left hd)

theorem statSuffix_inj {a b : statisticType} {suf : String}
    (ha : statSuffix a = some suf) (hb : statSuffix b = some suf) : a = b := by
  cases a <;> cases b <;> simp_all [statSuffix] <;>
    exact absurd (hb.trans ha.symm) (by decide)

theorem hasAllFields_iff (vals : List (statisticType × ℚ)) :
    hasAllFields vals = true ↔
      (statisticType.min ∈ vals.map Prod.fst ∧ statisticType.max ∈ vals.map Prod.fst ∧
        statisticType.sum ∈ vals.map Prod.fst ∧ statisticType.count ∈ vals.map Prod.fst) := by
  rw [hasAllFields, Bool.and_eq_true, Bool.and_eq_true, Bool.and_eq_true]
  rw [lookupA_isSome_iff, lookupA_isSome_iff, lookupA_isSome_iff, lookupA_isSome_iff]
  tauto

theorem fallbackDatum_eq_some_iff (m fn : String) (tags : List (String × String)) (ts : ℤ)
    (p : statisticType × ℚ) (d : MetricDatum) :
    fallbackDatum m fn tags ts p = some d ↔
      ∃ suf, statSuffix p.1 = some suf ∧
        d = { metricName := some (m ++ "_" ++ fn ++ "_" ++ suf),
              dimensions := BuildDimensions tags, timestamp := some ts,
              value := some p.2, statisticValues := Option.none,
              storageResolution := Option.none } := by
  rw [fallbackDatum]
  rcases hs : statSuffix p.1 with _ | suf
  · simp
  · rw [Option.map_some']
    constructor
    · intro h
      exact ⟨suf, rfl, (Option.some.inj h).symm⟩
    · rintro ⟨suf', hsuf', rfl⟩
      cases Option.some.inj hsuf'
      rfl

theorem fallbackDatum_target_eq_iff (m fn : String) (tags : List (String × String)) (ts : ℤ)
    (p : statisticType × ℚ) (s : statisticType) (q : ℚ) (suf : String)
    (hsuf : statSuffix s = some suf) :
    fallbackDatum m fn tags ts p =
        some { metricName := some (m ++ "_" ++ fn ++ "_" ++ suf),
               dimensions := BuildDimensions tags, timestamp := some ts,
               value := some q, statisticValues := Option.none,
               storageResolution := Option.none } ↔
      (p.1 = s ∧ p.2 = q) := by
  rw [fallbackDatum_eq_some_iff]
  constructor
  · rintro ⟨suf', hsuf', heq⟩
    have hm := congrArg MetricDatum.metricName heq
    simp only at hm
    have hsufeq : suf = suf' := string_append_cancel_left (Option.some.inj hm)
    have hv := congrArg MetricDatum.value heq
    simp only at hv
    exact ⟨statSuffix_inj hsuf' (hsufeq ▸ hsuf), (Option.some.inj hv).symm⟩
  · rintro ⟨hp1, hp2⟩
    exact ⟨suf, by rw [hp1, hsuf], by rw [hp2]⟩

theorem fallback_count_zero (m fn : String) (tags : List (String × String)) (ts : ℤ)
    (s : statisticType) (q : ℚ) (suf : String) (hsuf : statSuffix s = some suf) :
    ∀ vals : List (statisticType × ℚ), s ∉ vals.map Prod.fst →
      (vals.filterMap (fallbackDatum m fn tags ts)).count
        { metricName := some (m ++ "_" ++ fn ++ "_" ++ suf),
          dimensions := BuildDimensions tags, timestamp := some ts,
          value := some q, statisticValues := Option.none,
          storageResolution := Option.none } = 0 := by
  intro vals
  induction vals with
  | nil => intro _; rfl
  | cons p rest ih =>
    intro h
    rw [List.map_cons] at h
    have h1 : p.1 ≠ s := fun he => h (List.mem_cons.mpr (Or.inl he.symm))
    have h2 : s ∉ rest.map Prod.fst := fun he => h (List.mem_cons.mpr (Or.inr he))
    rcases hfb : fallbackDatum m fn tags ts p with _ | d
    · rw [List.filterMap_cons_none hfb]
      exact ih h2
    · rw [List.filterMap_cons_some hfb, List.count_cons, ih h2]
      rw [if_neg ?_]
      intro hbe
      have hde := eq_of_beq hbe
      rw [hde] at hfb
      exact h1 ((fallbackDatum_target_eq_iff m fn tags ts p s q suf hsuf).mp hfb).1

theorem fallback_count_one (m fn : String) (tags : List (String × String)) (ts : ℤ)
    (s : statisticType) (q : ℚ) (suf : String) (hsuf : statSuffix s = some suf) :
    ∀ vals : List (statisticType × ℚ), (vals.map Prod.fst).Nodup → (s, q) ∈ vals →
      (vals.filterMap (fallbackDatum m fn tags ts)).count
        { metricName := some (m ++ "_" ++ fn ++ "_" ++ suf),
          dimensions := BuildDimensions tags, timestamp := some ts,
          value := some q, statisticValues := Option.none,
          storageResolution := Option.none } = 1 := by
  intro vals
  induction vals with
  | nil => intro _ hm; simp at hm
  | cons p rest ih =>
    intro hnd hm
    rw [List.map_cons, List.nodup_cons] at hnd
    by_cases hps : p.1 = s
    · have hpq : p = (s, q) := by
        rcases List.mem_cons.mp hm with he | he
        · exact he.symm
        · exact absurd (hps ▸ List.mem_map.mpr ⟨(s, q), he, rfl⟩) hnd.1
      have hfb : fallbackDatum m fn tags ts p =
          some { metricName := some (m ++ "_" ++ fn ++ "_" ++ suf),
                 dimensions := BuildDimensions tags, timestamp := some ts,
                 value := some q, statisticValues := Option.none,
                 storageResolution := Option.none } :=
        (fallbackDatum_target_eq_iff m fn tags ts p s q suf hsuf).mpr
          (by rw [hpq]; exact ⟨rfl, rfl⟩)
      rw [List.filterMap_cons_some hfb, List.count_cons]
      rw [fallback_count_zero m fn tags ts s q suf hsuf rest (hps ▸ hnd.1)]
      rw [if_pos (beq_self_eq_true _)]
    · have hm' : (s, q) ∈ rest := by
        rcases List.mem_cons.mp hm with he | he
        · exact absurd (congrArg Prod.fst he.symm) hps
        · exact he
      rcases hfb : fallbackDatum m fn tags ts p with _ | d
      · rw [List.filterMap_cons_none hfb]
        exact ih hnd.2 hm'
      · rw [List.filterMap_cons_some hfb, List.count_cons, ih hnd.2 hm']
        rw [if_neg ?_]
        intro hbe
        have hde := eq_of_beq hbe
        rw [hde] at hfb
        exact hps ((fallbackDatum_target_eq_iff m fn tags ts p s q suf hsuf).mp hfb).1

/-- C1: for a statistic accumulator (whose kind map records the kinds
observed for one base field within one metric), `buildDatum` emits a
statistic-set datum named `<metric>_<field>` exactly when all four kinds
(min, max, sum, count) were observed; with fewer kinds, each observed
kind yields exactly one independent plain-scalar datum named
`<metric>_<field>_<kindname>`, and no partial statistic set and no other
datum is produced. -/
theorem claim_C1_statistic_datums (m fn : String) (tags : List (String × String))
    (vals : List (statisticType × ℚ)) (ts sr : ℤ)
    (hnd : (vals.map Prod.fst).Nodup) :
    ((∃ d ∈ buildDatum (cloudwatchField.statisticF m fn tags vals ts sr),
        d.statisticValues ≠ Option.none) ↔ hasAllFields vals = true) ∧
    (hasAllFields vals = true ↔
      (statisticType.min ∈ vals.map Prod.fst ∧ statisticType.max ∈ vals.map Prod.fst ∧
        statisticType.sum ∈ vals.map Prod.fst ∧ statisticType.count ∈ vals.map Prod.fst)) ∧
    (hasAllFields vals = true →
      ∃ ss : StatisticSet,
        buildDatum (cloudwatchField.statisticF m fn tags vals ts sr) =
          [{ metricName := some (m ++ "_" ++ fn), dimensions := BuildDimensions tags,
             timestamp := some ts, value := Option.none,
             statisticValues := some ss, storageResolution := some sr }] ∧
        (∀ q, (statisticType.min, q) ∈ vals → ss.minimum = q) ∧
        (∀ q, (statisticType.max, q) ∈ vals → ss.maximum = q) ∧
        (∀ q, (statisticType.sum, q) ∈ vals → ss.sum = q) ∧
        (∀ q, (statisticType.count, q) ∈ vals → ss.sampleCount = q)) ∧
    (hasAllFields vals = false →
      (∀ d ∈ buildDatum (cloudwatchField.statisticF m fn tags vals ts sr),
        d.statisticValues = Option.none ∧
          ∃ s q suf, (s, q) ∈ vals ∧ statSuffix s = some suf ∧
            d = { metricName := some (m ++ "_" ++ fn ++ "_" ++ suf),
                  dimensions := BuildDimensions tags, timestamp := some ts,
                  value := some q, statisticValues := Option.none,
                  storageResolution := Option.none }) ∧
      (∀ (s : statisticType) (q : ℚ) (suf : String), (s, q) ∈ vals →
        statSuffix s = some suf →
        (buildDatum (cloudwatchField.statisticF m fn tags vals ts sr)).count
          { metricName := some (m ++ "_" ++ fn ++ "_" ++ suf),
            dimensions := BuildDimensions tags, timestamp := some ts,
            value := some q, statisticValues := Option.none,
            storageResolution := Option.none } = 1)) := by
  have hbdT : hasAllFields vals = true →
      buildDatum (cloudwatchField.statisticF m fn tags vals ts sr) =
        [{ metricName := some (m ++ "_" ++ fn), dimensions := BuildDimensions tags,
           timestamp := some ts, value := Option.none,
           statisticValues := some
             { minimum := (lookupA statisticType.min vals).getD 0,
               maximum := (lookupA statisticType.max vals).getD 0,
               sum := (lookupA statisticType.sum vals).getD 0,
               sampleCount := (lookupA statisticType.count vals).getD 0 },
           storageResolution := some sr }] := by
    intro h
    rw [buildDatum, if_pos h]
  have hbdF : hasAllFields vals = false →
      buildDatum (cloudwatchField.statisticF m fn tags vals ts sr) =
        vals.filterMap (fallbackDatum m fn tags ts) := by
    intro h
    rw [buildDatum, if_neg (by rw [h]; exact Bool.false_ne_true)]
  have hmemF : ∀ d ∈ vals.filterMap (fallbackDatum m fn tags ts),
      d.statisticValues = Option.none ∧
        ∃ s q suf, (s, q) ∈ vals ∧ statSuffix s = some suf ∧
          d = { metricName := some (m ++ "_" ++ fn ++ "_" ++ suf),
                dimensions := BuildDimensions tags, timestamp := some ts,
                value := some q, statisticValues := Option.none,
                storageResolution := Option.none } := by
    intro d hd
    rcases List.mem_filterMap.mp hd with ⟨p, hp, hfb⟩
    rcases (fallbackDatum_eq_some_iff m fn tags ts p d).mp hfb with ⟨suf, hsuf, rfl⟩
    exact ⟨rfl, p.1, p.2, suf, hp, hsuf, rfl⟩
  refine ⟨?_, hasAllFields_iff vals, ?_, ?_⟩
  · constructor
    · intro hex
      by_contra hne
      have hF : hasAllFields vals = false := Bool.not_eq_true _ ▸ (Bool.eq_false_iff.mpr hne)
      rcases hex with ⟨d, hd, hdv⟩
      rw [hbdF hF] at hd
      exact hdv (hmemF d hd).1
    · intro hT
      rw [hbdT hT]
      exact ⟨_, List.mem_singleton_self _, by simp⟩
  · intro hT
    refine ⟨_, hbdT hT, ?_, ?_, ?_, ?_⟩ <;>
      intro q hq <;>
      rw [lookupA_of_mem_nodup hnd hq, Option.getD_some]
  · intro hF
    rw [hbdF hF]
    exact ⟨hmemF, fun s q suf hq hsuf =>
      fallback_count_one m fn tags ts s q suf hsuf vals hnd hq⟩

/-- Witness for C1 on a one-kind accumulator. -/
theorem claim_C1_statistic_datums_witness :
    hasAllFields [(statisticType.min, (1 : ℚ))] = true ↔
      (statisticType.min ∈ [(statisticType.min, (1 : ℚ))].map Prod.fst ∧
        statisticType.max ∈ [(statisticType.min, (1 : ℚ))].map Prod.fst ∧
        statisticType.sum ∈ [(statisticType.min, (1 : ℚ))].map Prod.fst ∧
        statisticType.count ∈ [(statisticType.min, (1 : ℚ))].map Prod.fst) :=
  (claim_C1_statistic_datums "m" "x" [] [(statisticType.min, 1)] 0 60 (by decide)).2.1
